import Mathlib

/-!
A verification development for the RevitMetadataExtract servers.

The servers sequence HTTP calls against the Autodesk APS cloud:
obtain a bearer token, ensure a bucket, upload a `.rvt` payload,
submit a translation job, poll the job manifest, fetch the metadata
tree and per-node property bags, and persist the result as JSON.

Remote endpoints are modelled as oracles: a response value (or an
axios-style error) is supplied for every remote call the code makes,
and each embedded function computes exactly what the JavaScript
source computes from those responses, together with the trace of
remote calls it performs.
-/

/-- The shape of an axios rejection the code inspects: `e.response?.status`
is `none` when the request produced no response (network failure) and
`some s` when the server answered with HTTP status `s`. -/
structure AxiosError where
  status : Option Nat
  deriving DecidableEq, Repr

/-- A thrown JavaScript value as the embedded code distinguishes them:
either `new Error(msg)` raised by the code itself, or a propagated
axios rejection. -/
inductive JsError where
  | error (msg : String)
  | axios (e : AxiosError)
  deriving DecidableEq, Repr

/-- Outcome of one `axios.get` of the translation manifest
(`src/server.js` line 93, `src/unnamed/part_000` line 93): either a
2xx response whose body carries `resp.data.status` as a string, or a
rejection. -/
inductive QueryResult where
  | ok (status : String)
  | err (e : AxiosError)
  deriving DecidableEq, Repr

/-! ## CredentialProvider: getAccessToken

`src/server.js` lines 24-37 (same body in the other variants): every
call POSTs the client credentials to the token endpoint and returns
`resp.data.access_token`.  No state is read or written besides the
request itself, so the embedding threads an explicit counter of
token-endpoint round trips. -/

/-- One call to `getAccessToken`: `tokenResp` is what the token
endpoint replies this time; the second component counts token
requests performed so far.  The body unconditionally issues a request
(`axios.post(tokenUrl, ...)`) — there is no cache to consult. -/
def getAccessToken (tokenResp : Except AxiosError String) (requests : Nat) :
    Except AxiosError String × Nat :=
  (tokenResp, requests + 1)

/-! ## ObjectStore client: createBucket

`src/server.js` lines 39-49: POST the bucket creation, and swallow
exactly the rejection whose `e.response?.status` is `409`; everything
else is rethrown.  `src/unnamed/part_000` lines 38-49 differs on
no-response rejections: `if (err.response && err.response.status !== 409)`
rethrows only when a response exists. -/

/-- Outcome of the bucket-creation POST as the catch block sees it. -/
inductive BucketResponse where
  | ok
  | err (status : Option Nat)
  deriving DecidableEq, Repr

/-- `createBucket` from `src/server.js` lines 39-49:
`if (e.response?.status !== 409) throw e`. -/
def createBucket : BucketResponse → Except JsError Unit
  | .ok => .ok ()
  | .err st => if st = some 409 then .ok () else .error (.axios ⟨st⟩)

/-- `createBucket` from `src/unnamed/part_000` lines 38-49:
`if (err.response && err.response.status !== 409) throw err`, so a
rejection with no response at all is swallowed as well. -/
def createBucketP0 : BucketResponse → Except JsError Unit
  | .ok => .ok ()
  | .err none => .ok ()
  | .err (some s) => if s = 409 then .ok () else .error (.axios ⟨some s⟩)

/-! ## JobSubmitter: translateFile

`src/server.js` lines 77-88: the URN submitted to (and returned from)
the job endpoint is `Buffer.from(objectId).toString('base64').replace(/=/g, '')`.
`Buffer.from` on a string yields its UTF-8 bytes; the base64 alphabet
and `=` padding follow RFC 4648. -/

/-- UTF-8 encoding of one character as byte values, as
`Buffer.from(objectId)` produces them. -/
def utf8BytesOfChar (c : Char) : List Nat :=
  let n := c.toNat
  if n < 0x80 then [n]
  else if n < 0x800 then [0xC0 + n / 64, 0x80 + n % 64]
  else if n < 0x10000 then [0xE0 + n / 4096, 0x80 + n / 64 % 64, 0x80 + n % 64]
  else [0xF0 + n / 262144, 0x80 + n / 4096 % 64, 0x80 + n / 64 % 64, 0x80 + n % 64]

/-- The UTF-8 bytes of a string. -/
def utf8Bytes (s : String) : List Nat :=
  s.data.flatMap utf8BytesOfChar

/-- The RFC 4648 base64 alphabet, as used by `Buffer.toString('base64')`. -/
def base64Table : List Char :=
  "ABCDEFGHIJKLMNOPQRSTUVWXYZabcdefghijklmnopqrstuvwxyz0123456789+/".data

/-- The base64 character for a sextet value. -/
def b64char (n : Nat) : Char :=
  base64Table.getD n 'A'

/-- Base64 of a byte sequence, with `=` padding, grouping bytes in
threes as `Buffer.toString('base64')` does. -/
def base64Encode : List Nat → List Char
  | [] => []
  | [b1] => [b64char (b1 / 4), b64char (b1 % 4 * 16), '=', '=']
  | [b1, b2] => [b64char (b1 / 4), b64char (b1 % 4 * 16 + b2 / 16), b64char (b2 % 16 * 4), '=']
  | b1 :: b2 :: b3 :: bs =>
      b64char (b1 / 4) :: b64char (b1 % 4 * 16 + b2 / 16) ::
      b64char (b2 % 16 * 4 + b3 / 64) :: b64char (b3 % 64) :: base64Encode bs

/-- The URN `translateFile` computes and returns (`src/server.js`
line 78, `src/unnamed/part_001` line 87):
`Buffer.from(objectId).toString('base64').replace(/=/g, '')`. -/
def translateFileUrn (objectId : String) : String :=
  ⟨(base64Encode (utf8Bytes objectId)).filter (fun c => c ≠ '=')⟩

/-! ## JobPoller: waitForTranslation

`src/server.js` lines 90-102:

```
async function waitForTranslation(token, urn, timeoutMs = 120000) {
  const start = Date.now();
  while (Date.now() - start < timeoutMs) {
    const resp = await axios.get(manifestUrl, auth);
    if (resp.data.status === 'success') return;
    if (resp.data.status === 'failed') throw new Error('Translation failed');
    await new Promise(r => setTimeout(r, 5000));
  }
  throw new Error('Translation timed out');
}
```

The embedding supplies `resp i`, the outcome of the `i`-th manifest
GET, and `dur i`, the wall-clock milliseconds that GET takes; each
non-terminal iteration additionally sleeps 5000 ms, so the elapsed
time `Date.now() - start` at the top of iteration `i+1` is the
elapsed time at iteration `i` plus `dur i + 5000`.  A rejected GET
propagates out of the loop (there is no try/catch around it).  The
result pairs the function's outcome — `.ok ()` for a plain return —
with the number of manifest queries issued. -/

/-- The polling loop of `waitForTranslation`, entered at query index
`i` with `elapsed = Date.now() - start`. -/
def waitFrom (resp : Nat → QueryResult) (dur : Nat → Nat) (timeoutMs : Nat)
    (i elapsed : Nat) : Except JsError Unit × Nat :=
  if elapsed < timeoutMs then
    match resp i with
    | .err e => (.error (.axios e), i + 1)
    | .ok s =>
      if s = "success" then (.ok (), i + 1)
      else if s = "failed" then (.error (.error "Translation failed"), i + 1)
      else waitFrom resp dur timeoutMs (i + 1) (elapsed + dur i + 5000)
  else
    (.error (.error "Translation timed out"), i)
  termination_by timeoutMs - elapsed
  decreasing_by omega

/-- `waitForTranslation(token, urn, timeoutMs)` from `src/server.js`
lines 90-102; the source's default for `timeoutMs` is 120000. -/
def waitForTranslation (resp : Nat → QueryResult) (dur : Nat → Nat)
    (timeoutMs : Nat) : Except JsError Unit × Nat :=
  waitFrom resp dur timeoutMs 0 0

/-- `Date.now() - start` at the top of the loop iteration that would
issue query `n`: the durations of queries `0..n-1` plus one 5000 ms
sleep per completed iteration. -/
def elapsedBefore (dur : Nat → Nat) : Nat → Nat
  | 0 => 0
  | n + 1 => elapsedBefore dur n + dur n + 5000

/-- `waitForTranslation` from `src/unnamed/part_000` lines 90-104:
the same classification, but looping `while (!done)` with no deadline.
`fuel` bounds how many loop iterations the embedding runs; `none`
means the loop was still running after `fuel` iterations.  On
termination the result again pairs the outcome with the number of
manifest queries issued. -/
def waitForTranslationNT (resp : Nat → QueryResult) : Nat → Nat → Option (Except JsError Unit × Nat)
  | 0, _ => none
  | fuel + 1, i =>
    match resp i with
    | .err e => some (.error (.axios e), i + 1)
    | .ok s =>
      if s = "success" then some (.ok (), i + 1)
      else if s = "failed" then some (.error (.error "Translation failed"), i + 1)
      else waitForTranslationNT resp fuel (i + 1)

/-! ## Poller lemmas -/

/-- Unfolding `waitFrom` when the deadline has already elapsed. -/
theorem waitFrom_stop (resp : Nat → QueryResult) (dur : Nat → Nat) (t i elapsed : Nat)
    (hstop : ¬ elapsed < t) :
    waitFrom resp dur t i elapsed = (.error (.error "Translation timed out"), i) := by
  rw [waitFrom.eq_def, if_neg hstop]

/-- Unfolding `waitFrom` when the query before the deadline is rejected. -/
theorem waitFrom_step_err (resp : Nat → QueryResult) (dur : Nat → Nat) (t i elapsed : Nat)
    (e : AxiosError) (hlt : elapsed < t) (he : resp i = .err e) :
    waitFrom resp dur t i elapsed = (.error (.axios e), i + 1) := by
  rw [waitFrom.eq_def, if_pos hlt, he]

/-- Unfolding `waitFrom` when the query before the deadline answers
with a manifest status. -/
theorem waitFrom_step_ok (resp : Nat → QueryResult) (dur : Nat → Nat) (t i elapsed : Nat)
    (s : String) (hlt : elapsed < t) (hs : resp i = .ok s) :
    waitFrom resp dur t i elapsed =
      if s = "success" then (.ok (), i + 1)
      else if s = "failed" then (.error (.error "Translation failed"), i + 1)
      else waitFrom resp dur t (i + 1) (elapsed + dur i + 5000) := by
  rw [waitFrom.eq_def, if_pos hlt, hs]

/-- For any starting point of the polling loop: while every query
issued strictly before the deadline comes back as a non-terminal 2xx
status, the loop ends by throwing `'Translation timed out'`, and every
query it issued was issued strictly before the deadline. -/
theorem waitFrom_timedOut (resp : Nat → QueryResult) (dur : Nat → Nat) (t : Nat)
    (h : ∀ j, elapsedBefore dur j < t →
      ∃ s, resp j = .ok s ∧ s ≠ "success" ∧ s ≠ "failed") :
    ∀ k i, t - elapsedBefore dur i ≤ 5000 * k →
      (waitFrom resp dur t i (elapsedBefore dur i)).1
          = .error (.error "Translation timed out") ∧
      i ≤ (waitFrom resp dur t i (elapsedBefore dur i)).2 ∧
      ∀ j, i ≤ j → j < (waitFrom resp dur t i (elapsedBefore dur i)).2 →
        elapsedBefore dur j < t := by
  intro k
  induction k with
  | zero =>
    intro i hk
    have hstop : ¬ elapsedBefore dur i < t := by omega
    rw [waitFrom_stop resp dur t i (elapsedBefore dur i) hstop]
    exact ⟨rfl, le_refl i, fun j hij hji => absurd (lt_of_le_of_lt hij hji) (lt_irrefl i)⟩
  | succ k ih =>
    intro i hk
    by_cases hlt : elapsedBefore dur i < t
    · obtain ⟨s, hs, hs1, hs2⟩ := h i hlt
      have heq : waitFrom resp dur t i (elapsedBefore dur i)
          = waitFrom resp dur t (i + 1) (elapsedBefore dur (i + 1)) := by
        rw [waitFrom_step_ok resp dur t i (elapsedBefore dur i) s hlt hs,
          if_neg hs1, if_neg hs2]
        rfl
      have hk' : t - elapsedBefore dur (i + 1) ≤ 5000 * k := by
        have : elapsedBefore dur (i + 1) = elapsedBefore dur i + dur i + 5000 := rfl
        omega
      obtain ⟨h1, h2, h3⟩ := ih (i + 1) hk'
      rw [heq]
      refine ⟨h1, le_trans (Nat.le_succ i) h2, fun j hij hji => ?_⟩
      rcases Nat.eq_or_lt_of_le hij with hji' | hji'
      · exact hji' ▸ hlt
      · exact h3 j hji' hji
    · rw [waitFrom_stop resp dur t i (elapsedBefore dur i) hlt]
      exact ⟨rfl, le_refl i, fun j hij hji => absurd (lt_of_le_of_lt hij hji) (lt_irrefl i)⟩

/-- Every run of the polling loop ends in exactly one of: a plain
return (success), the thrown `'Translation failed'`, the thrown
`'Translation timed out'`, or a propagated rejection of some manifest
query. -/
theorem waitFrom_outcomes (resp : Nat → QueryResult) (dur : Nat → Nat) (t : Nat) :
    ∀ k i elapsed, t - elapsed ≤ 5000 * k →
      (waitFrom resp dur t i elapsed).1 = .ok () ∨
      (waitFrom resp dur t i elapsed).1 = .error (.error "Translation failed") ∨
      (waitFrom resp dur t i elapsed).1 = .error (.error "Translation timed out") ∨
      ∃ j e, resp j = .err e ∧ (waitFrom resp dur t i elapsed).1 = .error (.axios e) := by
  intro k
  induction k with
  | zero =>
    intro i elapsed hk
    have hstop : ¬ elapsed < t := by omega
    rw [waitFrom_stop resp dur t i elapsed hstop]
    exact Or.inr (Or.inr (Or.inl rfl))
  | succ k ih =>
    intro i elapsed hk
    by_cases hlt : elapsed < t
    · cases hr : resp i with
      | err e =>
        rw [waitFrom_step_err resp dur t i elapsed e hlt hr]
        exact Or.inr (Or.inr (Or.inr ⟨i, e, hr, rfl⟩))
      | ok s =>
        rw [waitFrom_step_ok resp dur t i elapsed s hlt hr]
        by_cases hsu : s = "success"
        · rw [if_pos hsu]
          exact Or.inl rfl
        · rw [if_neg hsu]
          by_cases hfa : s = "failed"
          · rw [if_pos hfa]
            exact Or.inr (Or.inl rfl)
          · rw [if_neg hfa]
            exact ih (i + 1) (elapsed + dur i + 5000) (by omega)
    · rw [waitFrom_stop resp dur t i elapsed hlt]
      exact Or.inr (Or.inr (Or.inl rfl))

/-! ## Claim C1 — timeout behaviour of waitForTranslation -/

/-- Claim C1, as stated, is false of the code: with every manifest
query reporting a non-terminal status and a 12000 ms deadline,
`waitForTranslation` does not return a `TimedOut` value — it raises
the `'Translation timed out'` exception (an `Except.error`, never an
`Except.ok`). -/
theorem waitForTranslation_timeout_is_exception :
    (waitForTranslation (fun _ => .ok "pending") (fun _ => 0) 12000).1
        = .error (.error "Translation timed out") ∧
    (waitForTranslation (fun _ => .ok "pending") (fun _ => 0) 12000).1 ≠ .ok () := by
  have h0 : waitForTranslation (fun _ => .ok "pending") (fun _ => 0) 12000
      = (.error (.error "Translation timed out"), 3) := by
    show waitFrom (fun _ => .ok "pending") (fun _ => 0) 12000 0 0 = _
    rw [waitFrom_step_ok _ _ _ _ _ "pending" (by omega) rfl, if_neg (by decide), if_neg (by decide)]
    show waitFrom (fun _ => .ok "pending") (fun _ => 0) 12000 1 5000 = _
    rw [waitFrom_step_ok _ _ _ _ _ "pending" (by omega) rfl, if_neg (by decide), if_neg (by decide)]
    show waitFrom (fun _ => .ok "pending") (fun _ => 0) 12000 2 10000 = _
    rw [waitFrom_step_ok _ _ _ _ _ "pending" (by omega) rfl, if_neg (by decide), if_neg (by decide)]
    show waitFrom (fun _ => .ok "pending") (fun _ => 0) 12000 3 15000 = _
    rw [waitFrom_stop _ _ _ _ _ (by omega)]
  rw [h0]
  exact ⟨rfl, by simp⟩

/-- Claim C1 (amended): if every manifest query issued before the
deadline reports a non-terminal status, `waitForTranslation` ends by
raising the distinct `'Translation timed out'` exception (rather than
returning a `TimedOut` value), and it performs no status query at or
after the deadline: every one of its queries was issued while
`Date.now() - start < timeoutMs`. -/
theorem waitForTranslation_deadline (resp : Nat → QueryResult) (dur : Nat → Nat) (t : Nat)
    (h : ∀ j, elapsedBefore dur j < t →
      ∃ s, resp j = .ok s ∧ s ≠ "success" ∧ s ≠ "failed") :
    (waitForTranslation resp dur t).1 = .error (.error "Translation timed out") ∧
    ∀ j, j < (waitForTranslation resp dur t).2 → elapsedBefore dur j < t := by
  have h0 : elapsedBefore dur 0 = 0 := rfl
  have := waitFrom_timedOut resp dur t h t 0 (by omega)
  rw [h0] at this
  exact ⟨this.1, fun j hj => this.2.2 j (Nat.zero_le j) hj⟩

/-- Witness for `waitForTranslation_deadline` at a concrete run: all
queries pending, zero query time, 12000 ms deadline. -/
theorem waitForTranslation_deadline_witness :
    (waitForTranslation (fun _ => .ok "inprogress") (fun _ => 0) 12000).1
        = .error (.error "Translation timed out") :=
  (waitForTranslation_deadline (fun _ => .ok "inprogress") (fun _ => 0) 12000
    (fun j _ => ⟨"inprogress", rfl, by decide, by decide⟩)).1

/-! ## Claim C2 — [Pending, Pending, Succeeded] takes exactly 3 polls -/

/-- Claim C2: if the first two manifest queries report non-terminal
statuses, the third reports `success`, and all three are issued
before the (source-default) 120000 ms deadline, then
`waitForTranslation` returns successfully having issued exactly 3
status queries — never a fourth. -/
theorem waitForTranslation_three_polls (resp : Nat → QueryResult) (dur : Nat → Nat)
    (s0 s1 : String)
    (h0 : resp 0 = .ok s0) (h0s : s0 ≠ "success") (h0f : s0 ≠ "failed")
    (h1 : resp 1 = .ok s1) (h1s : s1 ≠ "success") (h1f : s1 ≠ "failed")
    (h2 : resp 2 = .ok "success")
    (hd1 : elapsedBefore dur 1 < 120000) (hd2 : elapsedBefore dur 2 < 120000) :
    waitForTranslation resp dur 120000 = (.ok (), 3) := by
  show waitFrom resp dur 120000 0 0 = _
  rw [waitFrom_step_ok resp dur 120000 0 0 s0 (by omega) h0, if_neg h0s, if_neg h0f]
  show waitFrom resp dur 120000 1 (elapsedBefore dur 1) = _
  rw [waitFrom_step_ok resp dur 120000 1 (elapsedBefore dur 1) s1 hd1 h1, if_neg h1s, if_neg h1f]
  show waitFrom resp dur 120000 2 (elapsedBefore dur 2) = _
  rw [waitFrom_step_ok resp dur 120000 2 (elapsedBefore dur 2) "success" hd2 h2,
    if_pos rfl]

/-- Witness for `waitForTranslation_three_polls`: the concrete status
sequence pending, pending, success with instantaneous queries. -/
theorem waitForTranslation_three_polls_witness :
    waitForTranslation
        (fun i => if i = 0 then .ok "pending" else if i = 1 then .ok "pending" else .ok "success")
        (fun _ => 0) 120000 = (.ok (), 3) :=
  waitForTranslation_three_polls _ _ "pending" "pending"
    rfl (by decide) (by decide) rfl (by decide) (by decide) rfl
    (by decide) (by decide)

/-! ## Claim C5 — query failures during polling -/

/-- Claim C5 is false of the code: `waitForTranslation` has no
try/catch around its manifest query, so any rejected query — a
network failure (no response), a transient 5xx, or a semantic 4xx —
propagates out and aborts the poll loop after that single query.
Nothing is classified as `Pending` and retried.  (The 4xx fail-fast
half of the claim does hold, but so does the same fail-fast for
network and 5xx failures.) -/
theorem waitForTranslation_query_error_aborts :
    waitForTranslation (fun _ => .err ⟨none⟩) (fun _ => 0) 120000
        = (.error (.axios ⟨none⟩), 1) ∧
    waitForTranslation (fun _ => .err ⟨some 503⟩) (fun _ => 0) 120000
        = (.error (.axios ⟨some 503⟩), 1) ∧
    waitForTranslation (fun _ => .err ⟨some 410⟩) (fun _ => 0) 120000
        = (.error (.axios ⟨some 410⟩), 1) := by
  refine ⟨?_, ?_, ?_⟩ <;>
    exact waitFrom_step_err _ _ 120000 0 0 _ (by omega) rfl

/-! ## Claim C8 — exactly one terminal outcome -/

/-- Claim C8: when every manifest query yields a status (no rejected
queries), a run of `waitForTranslation` produces exactly one of the
three terminal outcomes — success (plain return), `'Translation
failed'`, or `'Translation timed out'` — and whichever it produces
excludes the other two; being a pure function of its inputs, the
outcome cannot be overwritten afterwards. -/
theorem waitForTranslation_exactly_one_terminal (resp : Nat → QueryResult)
    (dur : Nat → Nat) (t : Nat) (h : ∀ i, ∃ s, resp i = .ok s) :
    ((waitForTranslation resp dur t).1 = .ok () ∧
      (waitForTranslation resp dur t).1 ≠ .error (.error "Translation failed") ∧
      (waitForTranslation resp dur t).1 ≠ .error (.error "Translation timed out")) ∨
    ((waitForTranslation resp dur t).1 = .error (.error "Translation failed") ∧
      (waitForTranslation resp dur t).1 ≠ .ok () ∧
      (waitForTranslation resp dur t).1 ≠ .error (.error "Translation timed out")) ∨
    ((waitForTranslation resp dur t).1 = .error (.error "Translation timed out") ∧
      (waitForTranslation resp dur t).1 ≠ .ok () ∧
      (waitForTranslation resp dur t).1 ≠ .error (.error "Translation failed")) := by
  have hw : waitForTranslation resp dur t = waitFrom resp dur t 0 0 := rfl
  rw [hw]
  rcases waitFrom_outcomes resp dur t t 0 0 (by omega) with h1 | h1 | h1 | ⟨j, e, hj, _⟩
  · exact Or.inl ⟨h1, by rw [h1]; simp, by rw [h1]; simp⟩
  · refine Or.inr (Or.inl ⟨h1, by rw [h1]; simp, ?_⟩)
    rw [h1]
    intro hcontra
    have := JsError.error.inj (Except.error.inj hcontra)
    simp at this
  · refine Or.inr (Or.inr ⟨h1, by rw [h1]; simp, ?_⟩)
    rw [h1]
    intro hcontra
    have := JsError.error.inj (Except.error.inj hcontra)
    simp at this
  · obtain ⟨s, hs⟩ := h j
    rw [hj] at hs
    exact absurd hs (by simp)

/-- Witness for `waitForTranslation_exactly_one_terminal`: an
immediately succeeding job. -/
theorem waitForTranslation_exactly_one_terminal_witness :
    ((waitForTranslation (fun _ => .ok "success") (fun _ => 0) 120000).1 = .ok () ∧
      (waitForTranslation (fun _ => .ok "success") (fun _ => 0) 120000).1
          ≠ .error (.error "Translation failed") ∧
      (waitForTranslation (fun _ => .ok "success") (fun _ => 0) 120000).1
          ≠ .error (.error "Translation timed out")) ∨
    ((waitForTranslation (fun _ => .ok "success") (fun _ => 0) 120000).1
          = .error (.error "Translation failed") ∧
      (waitForTranslation (fun _ => .ok "success") (fun _ => 0) 120000).1 ≠ .ok () ∧
      (waitForTranslation (fun _ => .ok "success") (fun _ => 0) 120000).1
          ≠ .error (.error "Translation timed out")) ∨
    ((waitForTranslation (fun _ => .ok "success") (fun _ => 0) 120000).1
          = .error (.error "Translation timed out") ∧
      (waitForTranslation (fun _ => .ok "success") (fun _ => 0) 120000).1 ≠ .ok () ∧
      (waitForTranslation (fun _ => .ok "success") (fun _ => 0) 120000).1
          ≠ .error (.error "Translation failed")) :=
  waitForTranslation_exactly_one_terminal (fun _ => .ok "success") (fun _ => 0) 120000
    (fun _ => ⟨"success", rfl⟩)

/-! ## Claim C3 — idempotent bucket creation -/

/-- Claim C3: `createBucket` treats a 409 \"already exists\" response
as success (in both `src/server.js` and `src/unnamed/part_000`) and
rethrows any response with a different status, so a second call for
the same bucket key — which the remote answers with success or 409 —
raises no error. -/
theorem createBucket_idempotent :
    (createBucket .ok = .ok ()) ∧
    (createBucket (.err (some 409)) = .ok ()) ∧
    (createBucketP0 (.err (some 409)) = .ok ()) ∧
    (∀ s, s ≠ 409 → createBucket (.err (some s)) = .error (.axios ⟨some s⟩)) ∧
    (∀ s, s ≠ 409 → createBucketP0 (.err (some s)) = .error (.axios ⟨some s⟩)) ∧
    (∀ r, r = .ok ∨ r = .err (some 409) → createBucket r = .ok ()) := by
  refine ⟨rfl, by simp [createBucket], by simp [createBucketP0], ?_, ?_, ?_⟩
  · intro s hs
    simp [createBucket, hs]
  · intro s hs
    simp [createBucketP0, hs]
  · rintro r (rfl | rfl)
    · rfl
    · simp [createBucket]

/-- Witness for `createBucket_idempotent`: a 500 response is raised,
a 409 response on the repeated call is not. -/
theorem createBucket_idempotent_witness :
    createBucket (.err (some 500)) = .error (.axios ⟨some 500⟩) ∧
    createBucket (.err (some 409)) = .ok () :=
  ⟨createBucket_idempotent.2.2.2.1 500 (by decide),
    createBucket_idempotent.2.2.2.2.2 (.err (some 409)) (Or.inr rfl)⟩

/-! ## Claim C4 — no token cache -/

/-- Claim C4 is false of the code: `getAccessToken` consults no
cache — every call, including a second call made immediately (well
within any token's expiry window), performs its own POST to the token
endpoint, so two calls perform two token requests. -/
theorem getAccessToken_always_refetches (tokenResp : Except AxiosError String) :
    (∀ n, (getAccessToken tokenResp n).2 = n + 1) ∧
    (getAccessToken tokenResp (getAccessToken tokenResp 0).2).2 = 2 := by
  exact ⟨fun n => rfl, rfl⟩

/-! ## Claim C10 — the URN is padding-free base64 -/

/-- Every character `b64char` yields is in the base64 alphabet. -/
theorem b64char_mem (n : Nat) : b64char n ∈ base64Table := by
  unfold b64char
  by_cases h : n < base64Table.length
  · rw [List.getD_eq_getElem base64Table 'A' h]
    exact List.getElem_mem h
  · rw [List.getD_eq_default base64Table 'A' (by omega)]
    decide

/-- Every character of a base64 encoding is either in the alphabet or
the `=` pad. -/
theorem base64Encode_chars : ∀ bs c, c ∈ base64Encode bs → c ∈ base64Table ∨ c = '='
  | [], c => by simp [base64Encode]
  | [b1], c => by
    intro hc
    simp only [base64Encode, List.mem_cons] at hc
    rcases hc with rfl | rfl | rfl | rfl | h
    · exact Or.inl (b64char_mem _)
    · exact Or.inl (b64char_mem _)
    · exact Or.inr rfl
    · exact Or.inr rfl
    · simp at h
  | [b1, b2], c => by
    intro hc
    simp only [base64Encode, List.mem_cons] at hc
    rcases hc with rfl | rfl | rfl | rfl | h
    · exact Or.inl (b64char_mem _)
    · exact Or.inl (b64char_mem _)
    · exact Or.inl (b64char_mem _)
    · exact Or.inr rfl
    · simp at h
  | b1 :: b2 :: b3 :: bs, c => by
    intro hc
    simp only [base64Encode, List.mem_cons] at hc
    rcases hc with rfl | rfl | rfl | rfl | h
    · exact Or.inl (b64char_mem _)
    · exact Or.inl (b64char_mem _)
    · exact Or.inl (b64char_mem _)
    · exact Or.inl (b64char_mem _)
    · exact base64Encode_chars bs c h

/-- Claim C10: the URN `translateFile` returns is the base64 encoding
of the object identifier's bytes with every `=` removed: each of its
characters is a base64-alphabet character and never `=`, and the URN
is a function of the object identifier alone, so two calls with the
same identifier return the same URN. -/
theorem translateFileUrn_padding_free (objectId : String) :
    (∀ c ∈ (translateFileUrn objectId).data, c ∈ base64Table ∧ c ≠ '=') ∧
    (∀ other : String, other = objectId →
      translateFileUrn other = translateFileUrn objectId) := by
  constructor
  · intro c hc
    have hmem : c ∈ (base64Encode (utf8Bytes objectId)).filter (fun c => c ≠ '=') := hc
    rw [List.mem_filter] at hmem
    have hne : c ≠ '=' := by
      have := hmem.2
      simpa using this
    rcases base64Encode_chars (utf8Bytes objectId) c hmem.1 with h | h
    · exact ⟨h, hne⟩
    · exact absurd h hne
  · intro other hother
    rw [hother]

/-- Witness for `translateFileUrn_padding_free`, at the object
identifier of the sample upload. -/
theorem translateFileUrn_padding_free_witness :
    translateFileUrn "urn:adsk.objects:os.object:bucket/racbasicsampleproject.rvt"
        = translateFileUrn "urn:adsk.objects:os.object:bucket/racbasicsampleproject.rvt" ∧
    ('=' ∈ (translateFileUrn "urn:adsk.objects:os.object:bucket/racbasicsampleproject.rvt").data
        → False) :=
  ⟨(translateFileUrn_padding_free
      "urn:adsk.objects:os.object:bucket/racbasicsampleproject.rvt").2 _ rfl,
    fun h => ((translateFileUrn_padding_free
      "urn:adsk.objects:os.object:bucket/racbasicsampleproject.rvt").1 '=' h).2 rfl⟩

/-! ## JSON values, serialization, and parsing

`fs.writeJson(path, v, spaces 2)` serializes with
`JSON.stringify(v, null, 2)` and a reload reads it back with
`JSON.parse`.  The embedding models JSON values with integer numeric
leaves (the persisted metadata of the sample files carries strings
and integers), the exact pretty-printing `JSON.stringify` performs at
indentation 2 — including its string escapes — and a standard JSON
reader. -/

/-- A JSON value: object members keep their insertion order, exactly
as `JSON.stringify`/`JSON.parse` preserve it. -/
inductive Json where
  | null
  | bool (b : Bool)
  | num (n : Int)
  | str (s : String)
  | arr (xs : List Json)
  | obj (kvs : List (String × Json))

/-- ASCII decimal digit test. -/
def isDigitCh (c : Char) : Bool := 48 ≤ c.toNat && c.toNat ≤ 57

/-- JSON insignificant whitespace. -/
def isWsCh (c : Char) : Bool := c = ' ' || c = '\n' || c = '\t' || c = '\r'

/-- Drop leading insignificant whitespace. -/
def skipWs : List Char → List Char
  | c :: cs => if isWsCh c then skipWs cs else c :: cs
  | [] => []

/-- The decimal digit character for `k % 10`-style values. -/
def digitChar (k : Nat) : Char :=
  Char.ofNat (48 + k % 10)

/-- Decimal digits of `n`, most significant first; `fuel` bounds the
recursion depth and `n + 1` always suffices. -/
def natDigitsAux : Nat → Nat → List Char
  | 0, _ => []
  | fuel + 1, n =>
    if n < 10 then [digitChar n]
    else natDigitsAux fuel (n / 10) ++ [digitChar (n % 10)]

/-- Decimal digits of `n`, most significant first. -/
def natDigits (n : Nat) : List Char := natDigitsAux (n + 1) n

/-- The decimal rendering of an integer, as `JSON.stringify` prints
integral numbers. -/
def printInt (n : Int) : List Char :=
  if n < 0 then '-' :: natDigits n.natAbs else natDigits n.natAbs

/-- The lowercase hex digit for values below 16. -/
def hexDigitCh (k : Nat) : Char :=
  if k < 10 then Char.ofNat (48 + k) else Char.ofNat (87 + k % 16)

/-- How `JSON.stringify` escapes one character inside a string
literal: quote and backslash get a backslash escape, the named
control characters get their short escapes, remaining control
characters get `\u00XY`, and everything else is emitted as itself. -/
def escapeChar (c : Char) : List Char :=
  if c = '"' then ['\\', '"']
  else if c = '\\' then ['\\', '\\']
  else if c = '\n' then ['\\', 'n']
  else if c = '\t' then ['\\', 't']
  else if c = '\r' then ['\\', 'r']
  else if c.toNat = 8 then ['\\', 'b']
  else if c.toNat = 12 then ['\\', 'f']
  else if c.toNat < 32 then
    ['\\', 'u', '0', '0', hexDigitCh (c.toNat / 16), hexDigitCh (c.toNat % 16)]
  else [c]

/-- Escape a whole string body. -/
def escChars : List Char → List Char
  | [] => []
  | c :: cs => escapeChar c ++ escChars cs

/-- The indentation `JSON.stringify(v, null, 2)` emits at nesting
depth `d`. -/
def indentN (d : Nat) : List Char := List.replicate (2 * d) ' '

mutual

/-- `JSON.stringify(v, null, 2)` at nesting depth `d`, as a character
list. -/
def printV : Nat → Json → List Char
  | _, .null => ['n', 'u', 'l', 'l']
  | _, .bool true => ['t', 'r', 'u', 'e']
  | _, .bool false => ['f', 'a', 'l', 's', 'e']
  | _, .num n => printInt n
  | _, .str s => '"' :: escChars s.data ++ ['"']
  | _, .arr [] => ['[', ']']
  | d, .arr (x :: xs) =>
      '[' :: '\n' :: indentN (d + 1) ++ printV (d + 1) x ++ printItems (d + 1) xs
        ++ '\n' :: indentN d ++ [']']
  | _, .obj [] => ['\x7b', '\x7d']
  | d, .obj (f :: fs) =>
      '\x7b' :: '\n' :: indentN (d + 1) ++ printField (d + 1) f ++ printFields (d + 1) fs
        ++ '\n' :: indentN d ++ ['\x7d']

/-- The `,\n<indent><element>` continuation for the remaining array
elements. -/
def printItems : Nat → List Json → List Char
  | _, [] => []
  | d, x :: xs => ',' :: '\n' :: indentN d ++ printV d x ++ printItems d xs

/-- One `"key": value` object member. -/
def printField : Nat → String × Json → List Char
  | d, (k, v) => '"' :: escChars k.data ++ '"' :: ':' :: ' ' :: printV d v

/-- The `,\n<indent><member>` continuation for the remaining object
members. -/
def printFields : Nat → List (String × Json) → List Char
  | _, [] => []
  | d, f :: fs => ',' :: '\n' :: indentN d ++ printField d f ++ printFields d fs

end

/-- `JSON.stringify(v, null, 2)`, as `fs.writeJson(..., spaces 2)`
writes it. -/
def jsonStringify (v : Json) : String := ⟨printV 0 v⟩

/-- The numeric value of a decimal digit character. -/
def digitVal (c : Char) : Nat := c.toNat - 48

/-- Split off the maximal run of leading decimal digits. -/
def takeDigits : List Char → List Char × List Char
  | [] => ([], [])
  | c :: cs =>
    if isDigitCh c then
      let p := takeDigits cs
      (c :: p.1, p.2)
    else ([], c :: cs)

/-- Fold a digit run into its value, most significant first. -/
def digitsVal : List Char → Nat → Nat
  | [], acc => acc
  | c :: cs, acc => digitsVal cs (acc * 10 + digitVal c)

/-- Read a nonempty decimal digit run and its value. -/
def parseNatNum (cs : List Char) : Option (Nat × List Char) :=
  let p := takeDigits cs
  if p.1.isEmpty then none else some (digitsVal p.1 0, p.2)

/-- The value of one hex digit character, lowercase letters accepted. -/
def hexVal (c : Char) : Option Nat :=
  if 48 ≤ c.toNat && c.toNat ≤ 57 then some (c.toNat - 48)
  else if 97 ≤ c.toNat && c.toNat ≤ 102 then some (c.toNat - 87)
  else none

/-- The character named by a single-letter string escape. -/
def unescCh (e : Char) : Option Char :=
  if e = '"' then some '"'
  else if e = '\\' then some '\\'
  else if e = '/' then some '/'
  else if e = 'n' then some '\n'
  else if e = 't' then some '\t'
  else if e = 'r' then some '\r'
  else if e = 'b' then some (Char.ofNat 8)
  else if e = 'f' then some (Char.ofNat 12)
  else none

/-- Read one token of a JSON string body: `some (none, r)` at the
closing quote, `some (some u, r)` for one (possibly escaped)
character, `none` on a malformed escape or exhausted input. -/
def unescTok : List Char → Option (Option Char × List Char)
  | [] => none
  | c :: r =>
    if c = '"' then some (none, r)
    else if c = '\\' then
      match r with
      | [] => none
      | e :: r1 =>
        if e = 'u' then
          match r1 with
          | h1 :: h2 :: h3 :: h4 :: r2 =>
            match hexVal h1, hexVal h2, hexVal h3, hexVal h4 with
            | some a, some b, some x, some y =>
              some (some (Char.ofNat (((a * 16 + b) * 16 + x) * 16 + y)), r2)
            | _, _, _, _ => none
          | _ => none
        else
          match unescCh e with
          | some u => some (some u, r1)
          | none => none
    else some (some c, r)

/-- Read a JSON string body after the opening quote, undoing the
escapes `JSON.parse` accepts, up to the closing quote; `fuel` bounds
the character count and the input length always suffices. -/
def parseStrCharsF : Nat → List Char → Option (List Char × List Char)
  | 0, _ => none
  | fuel + 1, cs =>
    match unescTok cs with
    | none => none
    | some (none, r) => some ([], r)
    | some (some u, r) =>
      match parseStrCharsF fuel r with
      | some p => some (u :: p.1, p.2)
      | none => none

/-- Read a JSON string body after the opening quote. -/
def parseStrChars (cs : List Char) : Option (List Char × List Char) :=
  parseStrCharsF (cs.length + 1) cs

mutual

/-- Read one JSON value; `fuel` bounds the bracket nesting plus the
element count the reader may traverse, and the printed size of the
value always suffices. -/
def parseV : Nat → List Char → Option (Json × List Char)
  | 0, _ => none
  | fuel + 1, cs =>
    match skipWs cs with
    | [] => none
    | c :: r =>
      if isDigitCh c then
        match parseNatNum (c :: r) with
        | some p => some (.num (p.1 : Int), p.2)
        | none => none
      else if c = '-' then
        match parseNatNum r with
        | some p => some (.num (-(p.1 : Int)), p.2)
        | none => none
      else if c = '"' then
        match parseStrChars r with
        | some p => some (.str ⟨p.1⟩, p.2)
        | none => none
      else if c = 'n' then
        match r with
        | 'u' :: 'l' :: 'l' :: r1 => some (.null, r1)
        | _ => none
      else if c = 't' then
        match r with
        | 'r' :: 'u' :: 'e' :: r1 => some (.bool true, r1)
        | _ => none
      else if c = 'f' then
        match r with
        | 'a' :: 'l' :: 's' :: 'e' :: r1 => some (.bool false, r1)
        | _ => none
      else if c = '[' then
        match skipWs r with
        | [] => none
        | c1 :: r1 =>
          if c1 = ']' then some (.arr [], r1)
          else
            match parseItems fuel (c1 :: r1) with
            | some p => some (.arr p.1, p.2)
            | none => none
      else if c = '\x7b' then
        match skipWs r with
        | [] => none
        | c1 :: r1 =>
          if c1 = '\x7d' then some (.obj [], r1)
          else
            match parseFields fuel (c1 :: r1) with
            | some p => some (.obj p.1, p.2)
            | none => none
      else none

/-- Read the elements of a nonempty array up to its `]`. -/
def parseItems : Nat → List Char → Option (List Json × List Char)
  | 0, _ => none
  | fuel + 1, cs =>
    match parseV fuel cs with
    | none => none
    | some (v, r) =>
      match skipWs r with
      | [] => none
      | c1 :: r1 =>
        if c1 = ',' then
          match parseItems fuel r1 with
          | some p => some (v :: p.1, p.2)
          | none => none
        else if c1 = ']' then some ([v], r1)
        else none

/-- Read the members of a nonempty object up to its closing brace. -/
def parseFields : Nat → List Char → Option (List (String × Json) × List Char)
  | 0, _ => none
  | fuel + 1, cs =>
    match skipWs cs with
    | [] => none
    | c :: r =>
      if c = '"' then
        match parseStrChars r with
        | none => none
        | some (k, r1) =>
          match skipWs r1 with
          | [] => none
          | c1 :: r2 =>
            if c1 = ':' then
              match parseV fuel r2 with
              | none => none
              | some (v, r3) =>
                match skipWs r3 with
                | [] => none
                | c2 :: r4 =>
                  if c2 = ',' then
                    match parseFields fuel r4 with
                    | some p => some ((⟨k⟩, v) :: p.1, p.2)
                    | none => none
                  else if c2 = '\x7d' then some ([(⟨k⟩, v)], r4)
                  else none
            else none
      else none

end

/-- `JSON.parse` on a whole document: one value with only whitespace
after it. -/
def jsonParse (s : String) : Option Json :=
  match parseV (s.data.length + 1) s.data with
  | some (v, r) => if skipWs r = [] then some v else none
  | none => none

/-! ## Round-trip lemmas: whitespace and digits -/

/-- A character list of insignificant whitespace only. -/
def wsOnly (l : List Char) : Prop := ∀ c ∈ l, isWsCh c = true

/-- Whether the input begins with a decimal digit (which would extend
a preceding number literal). -/
def digitStart : List Char → Bool
  | [] => false
  | c :: _ => isDigitCh c

theorem skipWs_cons_not (c : Char) (cs : List Char) (h : isWsCh c = false) :
    skipWs (c :: cs) = c :: cs := by
  simp [skipWs, h]

theorem skipWs_append (ws cs : List Char) (h : wsOnly ws) :
    skipWs (ws ++ cs) = skipWs cs := by
  induction ws with
  | nil => rfl
  | cons w ws ih =>
    have hw : isWsCh w = true := h w (List.mem_cons_self w ws)
    simp only [List.cons_append, skipWs, hw, if_true]
    exact ih fun c hc => h c (List.mem_cons_of_mem w hc)

theorem wsOnly_nl_indent (d : Nat) : wsOnly ('\n' :: indentN d) := by
  intro c hc
  rcases List.mem_cons.1 hc with rfl | hc
  · rfl
  · rw [List.eq_of_mem_replicate hc]
    rfl

theorem digitChar_is_digit (k : Nat) : isDigitCh (digitChar k) = true := by
  unfold digitChar
  have h10 : k % 10 < 10 := Nat.mod_lt k (by norm_num)
  revert h10
  generalize k % 10 = j
  intro h10
  interval_cases j <;> decide

theorem digitVal_digitChar (k : Nat) (h : k < 10) : digitVal (digitChar k) = k := by
  unfold digitChar
  rw [Nat.mod_eq_of_lt h]
  interval_cases k <;> decide

theorem natDigitsAux_digits (fuel n : Nat) :
    ∀ c ∈ natDigitsAux fuel n, isDigitCh c = true := by
  induction fuel generalizing n with
  | zero => intro c hc; simp [natDigitsAux] at hc
  | succ fuel ih =>
    intro c hc
    unfold natDigitsAux at hc
    by_cases h : n < 10
    · rw [if_pos h] at hc
      rcases List.mem_singleton.1 hc with rfl
      exact digitChar_is_digit n
    · rw [if_neg h] at hc
      rcases List.mem_append.1 hc with hc | hc
      · exact ih (n / 10) c hc
      · rcases List.mem_singleton.1 hc with rfl
        exact digitChar_is_digit (n % 10)

theorem natDigits_ne_nil (n : Nat) : natDigits n ≠ [] := by
  unfold natDigits natDigitsAux
  by_cases h : n < 10
  · simp [h]
  · simp [h]

theorem digitsVal_append (xs ys : List Char) :
    ∀ acc, digitsVal (xs ++ ys) acc = digitsVal ys (digitsVal xs acc) := by
  induction xs with
  | nil => intro acc; rfl
  | cons x xs ih =>
    intro acc
    rw [List.cons_append]
    exact ih (acc * 10 + digitVal x)

theorem digitsVal_natDigitsAux (fuel : Nat) :
    ∀ n acc, n < 10 ^ fuel →
      digitsVal (natDigitsAux fuel n) acc
        = acc * 10 ^ (natDigitsAux fuel n).length + n := by
  induction fuel with
  | zero =>
    intro n acc hn
    have : n = 0 := by omega
    subst this
    simp [natDigitsAux, digitsVal]
  | succ fuel ih =>
    intro n acc hn
    unfold natDigitsAux
    by_cases h : n < 10
    · rw [if_pos h]
      simp [digitsVal, digitVal_digitChar n h]
    · rw [if_neg h]
      rw [digitsVal_append]
      have hdiv : n / 10 < 10 ^ fuel := by
        rw [pow_succ] at hn
        omega
      rw [ih (n / 10) acc hdiv]
      simp only [digitsVal, digitVal_digitChar (n % 10) (by omega)]
      rw [List.length_append, List.length_singleton]
      have hmod : 10 * (n / 10) + n % 10 = n := Nat.div_add_mod n 10
      calc (acc * 10 ^ (natDigitsAux fuel (n / 10)).length + n / 10) * 10 + n % 10
          = acc * (10 ^ (natDigitsAux fuel (n / 10)).length * 10)
              + (10 * (n / 10) + n % 10) := by ring
        _ = acc * 10 ^ ((natDigitsAux fuel (n / 10)).length + 1) + n := by
            rw [hmod, pow_succ]

theorem digitsVal_natDigits (n : Nat) : digitsVal (natDigits n) 0 = n := by
  have hlt : n < 10 ^ (n + 1) := by
    calc n < 10 ^ n := Nat.lt_pow_self (by norm_num) n
      _ ≤ 10 ^ (n + 1) := Nat.pow_le_pow_right (by norm_num) (Nat.le_succ n)
  have := digitsVal_natDigitsAux (n + 1) n 0 hlt
  simpa [natDigits] using this

theorem takeDigits_append (ds rest : List Char)
    (hds : ∀ c ∈ ds, isDigitCh c = true) (hrest : digitStart rest = false) :
    takeDigits (ds ++ rest) = (ds, rest) := by
  induction ds with
  | nil =>
    cases rest with
    | nil => rfl
    | cons c cs =>
      have : isDigitCh c = false := hrest
      simp [takeDigits, this]
  | cons d ds ih =>
    have hd : isDigitCh d = true := hds d (List.mem_cons_self d ds)
    simp only [List.cons_append, takeDigits, hd, if_true]
    rw [show ds.append rest = ds ++ rest from rfl,
      ih fun c hc => hds c (List.mem_cons_of_mem d hc)]

theorem parseNatNum_natDigits (n : Nat) (rest : List Char)
    (hrest : digitStart rest = false) :
    parseNatNum (natDigits n ++ rest) = some (n, rest) := by
  unfold parseNatNum
  rw [takeDigits_append (natDigits n) rest (natDigitsAux_digits (n + 1) n) hrest]
  simp only []
  rw [if_neg (by simpa [List.isEmpty_iff] using natDigits_ne_nil n)]
  rw [digitsVal_natDigits]

/-! ## Round-trip lemmas: string escapes -/

theorem hexVal_zero : hexVal '0' = some 0 := by decide

theorem hexVal_hexDigitCh (k : Nat) (h : k < 16) : hexVal (hexDigitCh k) = some k := by
  unfold hexDigitCh
  interval_cases k <;> decide

/-- One escaped character always reads back as itself, whatever
follows. -/
theorem unescTok_escapeChar (c : Char) (x : List Char) :
    unescTok (escapeChar c ++ x) = some (some c, x) := by
  unfold escapeChar
  split_ifs with h1 h2 h3 h4 h5 h6 h7 h8
  · subst h1; simp [unescTok, unescCh]
  · subst h2; simp [unescTok, unescCh]
  · subst h3; simp [unescTok, unescCh]
  · subst h4; simp [unescTok, unescCh]
  · subst h5; simp [unescTok, unescCh]
  · have hc : Char.ofNat 8 = c := by rw [← h6, Char.ofNat_toNat]
    rw [← hc]
    simp [unescTok, unescCh]
  · have hc : Char.ofNat 12 = c := by rw [← h7, Char.ofNat_toNat]
    rw [← hc]
    simp [unescTok, unescCh]
  · have hhi : c.toNat / 16 < 16 := by omega
    have hlo : c.toNat % 16 < 16 := by omega
    have harith : ((0 * 16 + 0) * 16 + c.toNat / 16) * 16 + c.toNat % 16 = c.toNat := by
      omega
    have harith2 : c.toNat / 16 * 16 + c.toNat % 16 = c.toNat := by omega
    simp [unescTok, hexVal_zero, hexVal_hexDigitCh _ hhi, hexVal_hexDigitCh _ hlo,
      harith, harith2, Char.ofNat_toNat]
  · simp [unescTok, h1, h2]

theorem escChars_length_ge (l : List Char) : l.length ≤ (escChars l).length := by
  induction l with
  | nil => simp [escChars]
  | cons c l ih =>
    show l.length + 1 ≤ (escapeChar c ++ escChars l).length
    rw [List.length_append]
    have : 1 ≤ (escapeChar c).length := by
      unfold escapeChar
      split_ifs <;> simp
    omega

/-- Reading back an escaped string body recovers it exactly, for any
sufficient fuel. -/
theorem parseStrCharsF_escChars (l : List Char) :
    ∀ fuel rest, l.length + 1 ≤ fuel →
      parseStrCharsF fuel (escChars l ++ '"' :: rest) = some (l, rest) := by
  induction l with
  | nil =>
    intro fuel rest hf
    cases fuel with
    | zero => omega
    | succ f => simp [escChars, parseStrCharsF, unescTok]
  | cons c l ih =>
    intro fuel rest hf
    cases fuel with
    | zero => simp at hf
    | succ f =>
      show parseStrCharsF (f + 1) ((escapeChar c ++ escChars l) ++ '"' :: rest) = _
      rw [List.append_assoc]
      simp only [parseStrCharsF, unescTok_escapeChar]
      rw [ih f rest (by simp at hf; omega)]

/-- Reading back an escaped string body recovers it exactly. -/
theorem parseStrChars_escChars (l rest : List Char) :
    parseStrChars (escChars l ++ '"' :: rest) = some (l, rest) := by
  unfold parseStrChars
  apply parseStrCharsF_escChars
  have := escChars_length_ge l
  simp only [List.length_append, List.length_cons]
  omega

/-! ## Round-trip lemmas: size bounds and head characters -/

mutual

/-- Reader fuel consumed by a value: one unit per value plus one per
list element. -/
def jsize : Json → Nat
  | .arr xs => 1 + jsizeL xs
  | .obj fs => 1 + jsizeF fs
  | .null => 1
  | .bool _ => 1
  | .num _ => 1
  | .str _ => 1

/-- Fuel consumed by array elements. -/
def jsizeL : List Json → Nat
  | [] => 0
  | x :: xs => 1 + jsize x + jsizeL xs

/-- Fuel consumed by object members. -/
def jsizeF : List (String × Json) → Nat
  | [] => 0
  | f :: fs => 1 + jsize f.2 + jsizeF fs

end

theorem jsize_pos : ∀ v : Json, 1 ≤ jsize v
  | .arr xs => by simp [jsize]
  | .obj fs => by simp [jsize]
  | .null => le_refl 1
  | .bool _ => le_refl 1
  | .num _ => le_refl 1
  | .str _ => le_refl 1

mutual

theorem jsize_le_printV : ∀ (d : Nat) (v : Json), jsize v ≤ (printV d v).length
  | _, .null => by simp [jsize, printV]
  | _, .bool true => by simp [jsize, printV]
  | _, .bool false => by simp [jsize, printV]
  | _, .num n => by
    have h1 : natDigits n.natAbs ≠ [] := natDigits_ne_nil n.natAbs
    have h2 : 1 ≤ (natDigits n.natAbs).length := by
      cases hn : natDigits n.natAbs with
      | nil => exact absurd hn h1
      | cons a l => simp
    simp only [jsize, printV, printInt]
    split_ifs <;> simp <;> omega
  | _, .str s => by simp [jsize, printV]
  | _, .arr [] => by simp [jsize, jsizeL, printV]
  | d, .arr (x :: xs) => by
    have h1 := jsize_le_printV (d + 1) x
    have h2 := jsize_le_printItems (d + 1) xs
    simp only [jsize, jsizeL, printV, List.length_append, List.length_cons]
    omega
  | _, .obj [] => by simp [jsize, jsizeF, printV]
  | d, .obj (f :: fs) => by
    have h1 := jsize_le_printField (d + 1) f
    have h2 := jsize_le_printFields (d + 1) fs
    simp only [jsize, jsizeF, printV, List.length_append, List.length_cons]
    omega

theorem jsize_le_printItems : ∀ (d : Nat) (xs : List Json), jsizeL xs ≤ (printItems d xs).length
  | _, [] => by simp [jsizeL, printItems]
  | d, x :: xs => by
    have h1 := jsize_le_printV d x
    have h2 := jsize_le_printItems d xs
    simp only [jsizeL, printItems, List.length_append, List.length_cons]
    omega

theorem jsize_le_printField : ∀ (d : Nat) (f : String × Json), 1 + jsize f.2 ≤ (printField d f).length
  | d, (k, v) => by
    have h1 := jsize_le_printV d v
    simp only [printField, List.length_append, List.length_cons]
    omega

theorem jsize_le_printFields : ∀ (d : Nat) (fs : List (String × Json)),
    jsizeF fs ≤ (printFields d fs).length
  | _, [] => by simp [jsizeF, printFields]
  | d, f :: fs => by
    have h1 := jsize_le_printField d f
    have h2 := jsize_le_printFields d fs
    simp only [jsizeF, printFields, List.length_append, List.length_cons]
    omega

end

/-- A digit head excludes whitespace and every delimiter the readers
test for. -/
theorem digit_head_facts (c : Char) (h : isDigitCh c = true) :
    isWsCh c = false ∧ c ≠ ']' ∧ c ≠ '\x7d' := by
  have hn : 48 ≤ c.toNat ∧ c.toNat ≤ 57 := by
    simpa [isDigitCh] using h
  refine ⟨?_, ?_, ?_⟩
  · cases hw : isWsCh c with
    | false => rfl
    | true =>
      have : ((c = ' ' ∨ c = '\n') ∨ c = '\t') ∨ c = '\r' := by
        simpa [isWsCh] using hw
      rcases this with ((rfl | rfl) | rfl) | rfl <;> exact absurd hn (by decide)
  · rintro rfl
    exact absurd hn (by decide)
  · rintro rfl
    exact absurd hn (by decide)

/-- The first character a printed value emits, by value shape; it is
never whitespace and never a closing delimiter. -/
theorem printV_head (d : Nat) (v : Json) :
    ∃ c r, printV d v = c :: r ∧ (isWsCh c = false ∧ c ≠ ']' ∧ c ≠ '\x7d') := by
  cases v with
  | null => exact ⟨'n', _, rfl, by decide⟩
  | bool b => cases b with
    | true => exact ⟨'t', _, rfl, by decide⟩
    | false => exact ⟨'f', _, rfl, by decide⟩
  | num n =>
    show ∃ c r, printInt n = c :: r ∧ _
    unfold printInt
    by_cases hneg : n < 0
    · rw [if_pos hneg]
      exact ⟨'-', _, rfl, by decide⟩
    · rw [if_neg hneg]
      cases hd : natDigits n.natAbs with
      | nil => exact absurd hd (natDigits_ne_nil n.natAbs)
      | cons c r =>
        have hc : isDigitCh c = true := by
          apply natDigitsAux_digits (n.natAbs + 1) n.natAbs
          rw [show natDigitsAux (n.natAbs + 1) n.natAbs = natDigits n.natAbs from rfl, hd]
          exact List.mem_cons_self c r
        exact ⟨c, r, rfl, digit_head_facts c hc⟩
  | str s => exact ⟨'"', _, rfl, by decide⟩
  | arr xs => cases xs with
    | nil => exact ⟨'[', _, rfl, by decide⟩
    | cons x xs => exact ⟨'[', _, rfl, by decide⟩
  | obj fs => cases fs with
    | nil => exact ⟨'\x7b', _, rfl, by decide⟩
    | cons f fs => exact ⟨'\x7b', _, rfl, by decide⟩

theorem skipWs_nlInd (e : Nat) (cs : List Char) :
    skipWs ('\n' :: indentN e ++ cs) = skipWs cs :=
  skipWs_append ('\n' :: indentN e) cs (wsOnly_nl_indent e)

/-- Leading whitespace never changes what a value reads to. -/
theorem parseV_ws (fuel : Nat) (ws cs : List Char) (h : wsOnly ws) :
    parseV fuel (ws ++ cs) = parseV fuel cs := by
  cases fuel with
  | zero => rfl
  | succ m =>
    simp only [parseV]
    rw [skipWs_append ws cs h]

/-- Leading whitespace never changes what an element list reads to. -/
theorem parseItems_ws (fuel : Nat) (ws cs : List Char) (h : wsOnly ws) :
    parseItems fuel (ws ++ cs) = parseItems fuel cs := by
  cases fuel with
  | zero => rfl
  | succ m =>
    simp only [parseItems]
    rw [parseV_ws m ws cs h]

/-- Leading whitespace never changes what a member list reads to. -/
theorem parseFields_ws (fuel : Nat) (ws cs : List Char) (h : wsOnly ws) :
    parseFields fuel (ws ++ cs) = parseFields fuel cs := by
  cases fuel with
  | zero => rfl
  | succ m =>
    simp only [parseFields]
    rw [skipWs_append ws cs h]

/-! ## Round-trip: one reader step per printed shape -/

theorem digitStart_nl (tail : List Char) : digitStart ('\n' :: tail) = false := rfl

theorem skipWs_replicate (n : Nat) (cs : List Char) :
    skipWs (List.replicate n ' ' ++ cs) = skipWs cs := by
  apply skipWs_append
  intro c hc
  rw [List.eq_of_mem_replicate hc]
  rfl

theorem skipWs_indentN (e : Nat) (cs : List Char) :
    skipWs (indentN e ++ cs) = skipWs cs :=
  skipWs_replicate (2 * e) cs

theorem digitStart_printItems (d : Nat) (xs : List Json) (tail : List Char) :
    digitStart (printItems d xs ++ '\n' :: tail) = false := by
  cases xs with
  | nil => simp [printItems, digitStart, isDigitCh]
  | cons y ys => simp [printItems, digitStart, isDigitCh]

theorem digitStart_printFields (d : Nat) (fs : List (String × Json)) (tail : List Char) :
    digitStart (printFields d fs ++ '\n' :: tail) = false := by
  cases fs with
  | nil => simp [printFields, digitStart, isDigitCh]
  | cons g gs => simp [printFields, digitStart, isDigitCh]

theorem parseV_print_null (m d : Nat) (rest : List Char) :
    parseV (m + 1) (printV d .null ++ rest) = some (.null, rest) := by
  simp [printV, parseV, skipWs, isWsCh, isDigitCh]

theorem parseV_print_bool (m d : Nat) (b : Bool) (rest : List Char) :
    parseV (m + 1) (printV d (.bool b) ++ rest) = some (.bool b, rest) := by
  cases b <;> simp [printV, parseV, skipWs, isWsCh, isDigitCh]

theorem parseV_print_num (m d : Nat) (n : Int) (rest : List Char)
    (hrest : digitStart rest = false) :
    parseV (m + 1) (printV d (.num n) ++ rest) = some (.num n, rest) := by
  have hpr : printV d (.num n) = printInt n := rfl
  rw [hpr]
  unfold printInt
  by_cases hneg : n < 0
  · rw [if_pos hneg]
    have hcast : -((n.natAbs : Int)) = n := by omega
    simp only [List.cons_append, parseV,
      skipWs_cons_not '-' _ (by decide), isDigitCh]
    rw [parseNatNum_natDigits n.natAbs rest hrest]
    exact congrArg (fun z => some (Json.num z, rest)) hcast
  · rw [if_neg hneg]
    have hcast : ((n.natAbs : Int)) = n := by omega
    cases hd : natDigits n.natAbs with
    | nil => exact absurd hd (natDigits_ne_nil n.natAbs)
    | cons c r =>
      have hc : isDigitCh c = true := by
        apply natDigitsAux_digits (n.natAbs + 1) n.natAbs
        rw [show natDigitsAux (n.natAbs + 1) n.natAbs = natDigits n.natAbs from rfl, hd]
        exact List.mem_cons_self c r
      have hw : isWsCh c = false := (digit_head_facts c hc).1
      have hfold : c :: (r ++ rest) = natDigits n.natAbs ++ rest := by
        rw [hd, List.cons_append]
      rw [List.cons_append]
      simp only [parseV, skipWs_cons_not c _ hw, hc, if_true]
      rw [hfold, parseNatNum_natDigits n.natAbs rest hrest]
      exact congrArg (fun z => some (Json.num z, rest)) hcast

theorem parseV_print_str (m d : Nat) (s : String) (rest : List Char) :
    parseV (m + 1) (printV d (.str s) ++ rest) = some (.str s, rest) := by
  have heta : String.mk s.data = s := rfl
  have hshape : printV d (.str s) ++ rest = '"' :: (escChars s.data ++ ('"' :: rest)) := by
    simp [printV]
  rw [hshape]
  simp only [parseV, skipWs_cons_not '"' _ (by decide)]
  rw [parseStrChars_escChars s.data rest]
  simp [isDigitCh, heta]

theorem parseV_print_arr_nil (m d : Nat) (rest : List Char) :
    parseV (m + 1) (printV d (.arr []) ++ rest) = some (.arr [], rest) := by
  simp [printV, parseV, skipWs, isWsCh, isDigitCh]

theorem parseV_print_obj_nil (m d : Nat) (rest : List Char) :
    parseV (m + 1) (printV d (.obj []) ++ rest) = some (.obj [], rest) := by
  simp [printV, parseV, skipWs, isWsCh, isDigitCh]

theorem parseV_print_arr_cons (m d : Nat) (x : Json) (xs : List Json) (rest : List Char)
    (hitems : parseItems m
        (printV (d + 1) x ++ (printItems (d + 1) xs ++ ('\n' :: indentN d ++ (']' :: rest))))
      = some (x :: xs, rest)) :
    parseV (m + 1) (printV d (.arr (x :: xs)) ++ rest) = some (.arr (x :: xs), rest) := by
  obtain ⟨c1, r1, hhd, hw1, hbr1, _⟩ := printV_head (d + 1) x
  have hitems2 : parseItems m
      (c1 :: (r1 ++ (printItems (d + 1) xs ++ ('\n' :: (indentN d ++ (']' :: rest))))))
      = some (x :: xs, rest) := by
    rw [show c1 :: (r1 ++ (printItems (d + 1) xs ++ ('\n' :: (indentN d ++ (']' :: rest)))))
        = (c1 :: r1) ++ (printItems (d + 1) xs ++ ('\n' :: indentN d ++ (']' :: rest))) by simp,
      ← hhd]
    exact hitems
  have hshape : printV d (.arr (x :: xs)) ++ rest
      = '[' :: ('\n' :: (indentN (d + 1)
          ++ (c1 :: (r1 ++ (printItems (d + 1) xs ++ ('\n' :: (indentN d ++ (']' :: rest)))))))) := by
    simp [printV, hhd]
  have hw1' : ¬(((c1 = ' ' ∨ c1 = '\n') ∨ c1 = '\t') ∨ c1 = '\r') := by
    simpa [isWsCh] using hw1
  rw [hshape]
  simp [parseV, skipWs, isWsCh, isDigitCh, skipWs_indentN, skipWs_replicate, hw1', hbr1,
    hitems2]

theorem parseV_print_obj_cons (m d : Nat) (f : String × Json) (fs : List (String × Json))
    (rest : List Char)
    (hfields : parseFields m
        (printField (d + 1) f ++ (printFields (d + 1) fs ++ ('\n' :: indentN d ++ ('\x7d' :: rest))))
      = some (f :: fs, rest)) :
    parseV (m + 1) (printV d (.obj (f :: fs)) ++ rest) = some (.obj (f :: fs), rest) := by
  obtain ⟨k, v⟩ := f
  have hpf : printField (d + 1) (k, v)
      = '"' :: (escChars k.data ++ ('"' :: ':' :: ' ' :: printV (d + 1) v)) := by
    simp [printField]
  have hfields2 : parseFields m
      ('"' :: (escChars k.data
        ++ ('"' :: ':' :: ' ' :: (printV (d + 1) v
          ++ (printFields (d + 1) fs ++ ('\n' :: (indentN d ++ ('\x7d' :: rest))))))))
      = some ((k, v) :: fs, rest) := by
    rw [show ('"' :: (escChars k.data
          ++ ('"' :: ':' :: ' ' :: (printV (d + 1) v
            ++ (printFields (d + 1) fs ++ ('\n' :: (indentN d ++ ('\x7d' :: rest))))))))
        = ('"' :: (escChars k.data ++ ('"' :: ':' :: ' ' :: printV (d + 1) v)))
          ++ (printFields (d + 1) fs ++ ('\n' :: indentN d ++ ('\x7d' :: rest))) by simp,
      ← hpf]
    exact hfields
  have hshape : printV d (.obj ((k, v) :: fs)) ++ rest
      = '\x7b' :: ('\n' :: (indentN (d + 1)
          ++ ('"' :: (escChars k.data ++ ('"' :: ':' :: ' ' :: printV (d + 1) v)
            ++ (printFields (d + 1) fs ++ ('\n' :: (indentN d ++ ('\x7d' :: rest)))))))) := by
    simp [printV, hpf]
  rw [hshape]
  simp [parseV, skipWs, isWsCh, isDigitCh, skipWs_indentN, skipWs_replicate, hfields2]

theorem parseV_space (fuel : Nat) (cs : List Char) :
    parseV fuel (' ' :: cs) = parseV fuel cs :=
  parseV_ws fuel [' '] cs (by intro c hc; rw [List.eq_of_mem_singleton hc]; rfl)

theorem parseItems_close (m e : Nat) (input rest : List Char) (x : Json)
    (hv : parseV m input = some (x, '\n' :: indentN e ++ (']' :: rest))) :
    parseItems (m + 1) input = some ([x], rest) := by
  simp only [parseItems, hv]
  rw [skipWs_nlInd e _, skipWs_cons_not ']' _ (by decide)]
  simp

theorem parseItems_more (m : Nat) (input r1 : List Char) (x : Json) (ys : List Json)
    (rest : List Char)
    (hv : parseV m input = some (x, ',' :: r1))
    (hrec : parseItems m r1 = some (ys, rest)) :
    parseItems (m + 1) input = some (x :: ys, rest) := by
  simp only [parseItems, hv]
  rw [skipWs_cons_not ',' _ (by decide)]
  simp [hrec]

theorem parseFields_close (m d e : Nat) (k : String) (v : Json) (rest : List Char)
    (hv : parseV m (printV d v ++ ('\n' :: indentN e ++ ('\x7d' :: rest)))
      = some (v, '\n' :: indentN e ++ ('\x7d' :: rest))) :
    parseFields (m + 1) (printField d (k, v) ++ ('\n' :: indentN e ++ ('\x7d' :: rest)))
      = some ([(k, v)], rest) := by
  have heta : String.mk k.data = k := rfl
  have hshape : printField d (k, v) ++ ('\n' :: indentN e ++ ('\x7d' :: rest))
      = '"' :: (escChars k.data
        ++ ('"' :: (':' :: (' ' :: (printV d v ++ ('\n' :: indentN e ++ ('\x7d' :: rest))))))) := by
    simp [printField]
  rw [hshape]
  simp only [parseFields, skipWs_cons_not '"' _ (by decide), reduceIte,
    parseStrChars_escChars, skipWs_cons_not ':' _ (by decide), parseV_space]
  rw [hv]
  simp [skipWs, isWsCh, skipWs_indentN, skipWs_replicate, heta]

theorem parseFields_more (m d : Nat) (k : String) (v : Json) (r1 : List Char)
    (gs : List (String × Json)) (rest : List Char)
    (hv : parseV m (printV d v ++ (',' :: r1)) = some (v, ',' :: r1))
    (hrec : parseFields m r1 = some (gs, rest)) :
    parseFields (m + 1) (printField d (k, v) ++ (',' :: r1)) = some ((k, v) :: gs, rest) := by
  have heta : String.mk k.data = k := rfl
  have hshape : printField d (k, v) ++ (',' :: r1)
      = '"' :: (escChars k.data ++ ('"' :: (':' :: ' ' :: (printV d v ++ (',' :: r1))))) := by
    simp [printField]
  rw [hshape]
  simp [parseFields, parseStrChars_escChars, skipWs, isWsCh, isDigitCh, skipWs_indentN,
    skipWs_replicate, parseV_space, hv, hrec, heta]

/-- The full round trip: any printed value, followed by anything that
cannot extend a number literal, reads back as itself — and likewise
for printed element and member lists up to their closing delimiter —
whenever the reader's fuel covers the value's size. -/
theorem printParse (fuel : Nat) :
    (∀ v d rest, jsize v ≤ fuel → digitStart rest = false →
      parseV fuel (printV d v ++ rest) = some (v, rest)) ∧
    (∀ x xs d e rest, jsizeL (x :: xs) ≤ fuel →
      parseItems fuel (printV d x ++ (printItems d xs ++ ('\n' :: indentN e ++ (']' :: rest))))
        = some (x :: xs, rest)) ∧
    (∀ k v fs d e rest, jsizeF ((k, v) :: fs) ≤ fuel →
      parseFields fuel
          (printField d (k, v) ++ (printFields d fs ++ ('\n' :: indentN e ++ ('\x7d' :: rest))))
        = some ((k, v) :: fs, rest)) := by
  induction fuel with
  | zero =>
    refine ⟨fun v d rest hs _ => absurd hs ?_, fun x xs d e rest hs => absurd hs ?_,
      fun k v fs d e rest hs => absurd hs ?_⟩
    · have := jsize_pos v
      omega
    · have := jsize_pos x
      simp only [jsizeL]
      omega
    · have := jsize_pos v
      simp only [jsizeF]
      omega
  | succ m ih =>
    obtain ⟨ih1, ih2, ih3⟩ := ih
    refine ⟨?_, ?_, ?_⟩
    · intro v d rest hs hrest
      cases v with
      | null => exact parseV_print_null m d rest
      | bool b => exact parseV_print_bool m d b rest
      | num n => exact parseV_print_num m d n rest hrest
      | str s => exact parseV_print_str m d s rest
      | arr xs =>
        cases xs with
        | nil => exact parseV_print_arr_nil m d rest
        | cons x xs =>
          apply parseV_print_arr_cons
          apply ih2 x xs (d + 1) d rest
          simp only [jsize] at hs
          omega
      | obj fs =>
        cases fs with
        | nil => exact parseV_print_obj_nil m d rest
        | cons f fs =>
          obtain ⟨k, v⟩ := f
          apply parseV_print_obj_cons
          apply ih3 k v fs (d + 1) d rest
          simp only [jsize] at hs
          omega
    · intro x xs d e rest hs
      have hx : jsize x ≤ m := by
        simp only [jsizeL] at hs
        omega
      cases xs with
      | nil =>
        have hv := ih1 x d ('\n' :: indentN e ++ (']' :: rest)) hx (digitStart_nl _)
        simp only [printItems, List.nil_append]
        exact parseItems_close m e _ rest x hv
      | cons y ys =>
        have hR : printItems d (y :: ys) ++ ('\n' :: indentN e ++ (']' :: rest))
            = ',' :: ('\n' :: (indentN d
              ++ (printV d y ++ (printItems d ys ++ ('\n' :: indentN e ++ (']' :: rest)))))) := by
          simp [printItems]
        have hv := ih1 x d
          (printItems d (y :: ys) ++ ('\n' :: indentN e ++ (']' :: rest))) hx
          (digitStart_printItems d (y :: ys) _)
        rw [hR] at hv
        have hrec : parseItems m ('\n' :: (indentN d
            ++ (printV d y ++ (printItems d ys ++ ('\n' :: indentN e ++ (']' :: rest))))))
            = some (y :: ys, rest) := by
          have hstrip := parseItems_ws m ('\n' :: indentN d)
            (printV d y ++ (printItems d ys ++ ('\n' :: indentN e ++ (']' :: rest))))
            (wsOnly_nl_indent d)
          have hbody := ih2 y ys d e rest (by simp only [jsizeL] at hs ⊢; omega)
          exact hstrip.trans hbody
        rw [hR]
        exact parseItems_more m _
          ('\n' :: (indentN d
            ++ (printV d y ++ (printItems d ys ++ ('\n' :: indentN e ++ (']' :: rest))))))
          x (y :: ys) rest hv hrec
    · intro k v fs d e rest hs
      have hv' : jsize v ≤ m := by
        simp only [jsizeF] at hs
        omega
      cases fs with
      | nil =>
        have hv := ih1 v d ('\n' :: indentN e ++ ('\x7d' :: rest)) hv' (digitStart_nl _)
        simp only [printFields, List.nil_append]
        exact parseFields_close m d e k v rest hv
      | cons g gs =>
        obtain ⟨k2, v2⟩ := g
        have hR : printFields d ((k2, v2) :: gs) ++ ('\n' :: indentN e ++ ('\x7d' :: rest))
            = ',' :: ('\n' :: (indentN d
              ++ (printField d (k2, v2)
                ++ (printFields d gs ++ ('\n' :: indentN e ++ ('\x7d' :: rest)))))) := by
          simp [printFields]
        have hv := ih1 v d
          (printFields d ((k2, v2) :: gs) ++ ('\n' :: indentN e ++ ('\x7d' :: rest))) hv'
          (digitStart_printFields d ((k2, v2) :: gs) _)
        rw [hR] at hv
        have hrec : parseFields m ('\n' :: (indentN d
            ++ (printField d (k2, v2)
              ++ (printFields d gs ++ ('\n' :: indentN e ++ ('\x7d' :: rest))))))
            = some ((k2, v2) :: gs, rest) := by
          have hstrip := parseFields_ws m ('\n' :: indentN d)
            (printField d (k2, v2)
              ++ (printFields d gs ++ ('\n' :: indentN e ++ ('\x7d' :: rest))))
            (wsOnly_nl_indent d)
          have hbody := ih3 k2 v2 gs d e rest (by simp only [jsizeF] at hs ⊢; omega)
          exact hstrip.trans hbody
        rw [hR]
        exact parseFields_more m d k v
          ('\n' :: (indentN d
            ++ (printField d (k2, v2)
              ++ (printFields d gs ++ ('\n' :: indentN e ++ ('\x7d' :: rest))))))
          ((k2, v2) :: gs) rest hv hrec

/-- Serialization round trip: reloading anything `JSON.stringify`d at
indentation 2 (as `fs.writeJson` persists it) yields the value that
was written. -/
theorem jsonParse_jsonStringify (v : Json) : jsonParse (jsonStringify v) = some v := by
  unfold jsonParse jsonStringify
  have hfuel : jsize v ≤ (printV 0 v).length + 1 :=
    le_trans (jsize_le_printV 0 v) (Nat.le_succ _)
  have h := (printParse ((printV 0 v).length + 1)).1 v 0 [] hfuel rfl
  rw [List.append_nil] at h
  rw [show (⟨printV 0 v⟩ : String).data = printV 0 v from rfl, h]
  simp [skipWs]

/-! ## The POST /extract route of src/unnamed/part_000 (lines 151-202)

The route validates the selection against `RVT_FILES` and the local
file system, then runs the pipeline: token, bucket, signed upload
URLs, one S3 PUT per signed URL, finalize, translation job, the
deadline-free poll loop, the metadata tree, the properties of the
FIRST tree node only (`metadataTree.data.metadata[0].guid`), and one
`fs.writeJson` of those properties.  Any thrown error lands in the
route's catch and produces HTTP 500.  The embedding records every
remote call and file write, in order. -/

/-- The selectable sample files (`src/unnamed/part_000` lines 14-19,
`src/server.js` second variant lines 205-210). -/
def RVT_FILES : List String :=
  ["Snowdon Towers Sample HVAC.rvt", "racadvancedsampleproject.rvt",
    "racbasicsampleproject.rvt", "rstadvancedsampleproject.rvt"]

/-- One remote call or file write the route performs. -/
inductive Step where
  | tokenRequest
  | bucketCreate
  | signedUrlsReq
  | s3Put (url : String)
  | finalizeReq
  | translateJob
  | manifestQuery (i : Nat)
  | metadataReq
  | propsReq (guid : String)
  | writeJsonFile (name : String)
  deriving DecidableEq, Repr

/-- The signed-upload response body: `resp.data.uploadKey` and
`resp.data.urls`. -/
structure SignedUpload where
  uploadKey : String
  urls : List String

/-- One node descriptor of the metadata tree
(`metadataTree.data.metadata`). -/
structure MetaNode where
  guid : String

/-- The remote world the route runs against: one response per
endpoint; the manifest endpoint answers per query index and the
properties endpoint per GUID. -/
structure Env where
  tokenResp : Except AxiosError String
  bucketResp : BucketResponse
  signedResp : Except AxiosError SignedUpload
  uploadResp : String → Except AxiosError Unit
  finalizeResp : Except AxiosError String
  translateResp : Except AxiosError Unit
  manifestResp : Nat → QueryResult
  metadataResp : Except AxiosError (List MetaNode)
  propsResp : String → Except AxiosError Json

/-- What the route responds and persists: HTTP status, the ordered
trace of remote calls and writes, and the result file written (name
and JSON content), if any. -/
structure HandlerResult where
  status : Nat
  steps : List Step
  written : Option (String × Json)

/-- `uploadToS3` from `src/unnamed/part_000` lines 60-65: one PUT per
signed URL, stopping at the first rejection.  Returns the PUTs
attempted and the error, if any. -/
def uploadToS3 (resp : String → Except AxiosError Unit) : List String → List Step × Option AxiosError
  | [] => ([], none)
  | u :: us =>
    match resp u with
    | .error e => ([.s3Put u], some e)
    | .ok () =>
      let p := uploadToS3 resp us
      (.s3Put u :: p.1, p.2)

/-- `selectedFile.replace(/[^a-z0-9]/gi, '_')` on one character. -/
def sanitizeChar (c : Char) : Char :=
  if (65 ≤ c.toNat ∧ c.toNat ≤ 90) ∨ (97 ≤ c.toNat ∧ c.toNat ≤ 122)
      ∨ (48 ≤ c.toNat ∧ c.toNat ≤ 57) then c else '_'

/-- The persisted file name
(`src/unnamed/part_000` line 179):
`selectedFile.replace(/[^a-z0-9]/gi, '_').toLowerCase() + '_properties.json'`. -/
def safeFileName (selectedFile : String) : String :=
  ⟨(selectedFile.data.map sanitizeChar).map Char.toLower⟩ ++ "_properties.json"

/-- The POST /extract route of `src/unnamed/part_000` lines 151-202.
`fileExists` is what `fs.existsSync` reports; `fuel` bounds the poll
loop of its deadline-free `waitForTranslation` and `none` means the
loop was still polling after `fuel` iterations. -/
def extractHandler (env : Env) (selectedFile : String) (fileExists : Bool) (fuel : Nat) :
    Option HandlerResult :=
  if selectedFile ∉ RVT_FILES then some ⟨400, [], none⟩
  else if ¬ fileExists then some ⟨404, [], none⟩
  else
    match env.tokenResp with
    | .error _ => some ⟨500, [.tokenRequest], none⟩
    | .ok _ =>
      match createBucketP0 env.bucketResp with
      | .error _ => some ⟨500, [.tokenRequest, .bucketCreate], none⟩
      | .ok () =>
        match env.signedResp with
        | .error _ => some ⟨500, [.tokenRequest, .bucketCreate, .signedUrlsReq], none⟩
        | .ok su =>
          let up := uploadToS3 env.uploadResp su.urls
          let steps0 := [Step.tokenRequest, .bucketCreate, .signedUrlsReq] ++ up.1
          match up.2 with
          | some _ => some ⟨500, steps0, none⟩
          | none =>
            match env.finalizeResp with
            | .error _ => some ⟨500, steps0 ++ [.finalizeReq], none⟩
            | .ok _ =>
              match env.translateResp with
              | .error _ => some ⟨500, steps0 ++ [.finalizeReq, .translateJob], none⟩
              | .ok () =>
                match waitForTranslationNT env.manifestResp fuel 0 with
                | none => none
                | some (res, q) =>
                  let steps1 := steps0 ++ [.finalizeReq, .translateJob]
                    ++ (List.range q).map Step.manifestQuery
                  match res with
                  | .error _ => some ⟨500, steps1, none⟩
                  | .ok () =>
                    match env.metadataResp with
                    | .error _ => some ⟨500, steps1 ++ [.metadataReq], none⟩
                    | .ok tree =>
                      match tree with
                      | [] => some ⟨500, steps1 ++ [.metadataReq], none⟩
                      | n1 :: _ =>
                        match env.propsResp n1.guid with
                        | .error _ =>
                          some ⟨500, steps1 ++ [.metadataReq, .propsReq n1.guid], none⟩
                        | .ok properties =>
                          some ⟨200,
                            steps1 ++ [.metadataReq, .propsReq n1.guid,
                              .writeJsonFile (safeFileName selectedFile)],
                            some (safeFileName selectedFile, properties)⟩

/-! ## Claim C9 — invalid file selection short-circuits the pipeline -/

/-- Claim C9: a POST /extract whose selected file is not in
`RVT_FILES` is answered with HTTP 400 having performed no pipeline
step at all — no token request, no bucket creation, no upload, no job
submission, no status query — and no result file is written. -/
theorem extract_invalid_file (env : Env) (selectedFile : String) (fileExists : Bool)
    (fuel : Nat) (h : selectedFile ∉ RVT_FILES) :
    extractHandler env selectedFile fileExists fuel = some ⟨400, [], none⟩ := by
  unfold extractHandler
  rw [if_pos h]

/-- A remote world for concrete runs of the route: everything
succeeds, one signed URL, a one-node tree, an immediately successful
translation. -/
def envHappy : Env :=
  ⟨.ok "token", .ok, .ok ⟨"upkey", ["u1"]⟩, fun _ => .ok (),
    .ok "urn:adsk.objects:os.object:bucket/file.rvt", .ok (),
    fun _ => .ok "success", .ok [⟨"g1"⟩],
    fun _ => .ok (.obj [("name", .str "Wall")])⟩

/-- Witness for `extract_invalid_file` at a concrete request. -/
theorem extract_invalid_file_witness :
    extractHandler envHappy "malicious.rvt" true 1 = some ⟨400, [], none⟩ :=
  extract_invalid_file envHappy "malicious.rvt" true 1 (by decide)

/-! ## Claim C6 — node failures in the metadata fetch -/

/-- A remote world with a 3-node metadata tree in which fetching the
properties of node 2 fails while nodes 1 and 3 would succeed. -/
def envThreeNodes : Env :=
  ⟨.ok "token", .ok, .ok ⟨"upkey", ["u1"]⟩, fun _ => .ok (),
    .ok "urn:adsk.objects:os.object:bucket/file.rvt", .ok (),
    fun _ => .ok "success", .ok [⟨"g1"⟩, ⟨"g2"⟩, ⟨"g3"⟩],
    fun g => if g = "g2" then .error ⟨some 404⟩
      else .ok (.obj [("node", .str g)])⟩

/-- Claim C6 is false of the code: on a 3-node tree where node 2's
properties fail, the route still reports success but the persisted
result holds only node 1's property bag — nodes 2 and 3 are never
queried (the only properties request is for `g1`), so the result
neither contains node 3's bag nor any per-node error entry for
node 2. -/
theorem extract_fetches_first_node_only :
    extractHandler envThreeNodes "racbasicsampleproject.rvt" true 2
      = some ⟨200,
        [.tokenRequest, .bucketCreate, .signedUrlsReq, .s3Put "u1", .finalizeReq,
          .translateJob, .manifestQuery 0, .metadataReq, .propsReq "g1",
          .writeJsonFile "racbasicsampleproject_rvt_properties.json"],
        some ("racbasicsampleproject_rvt_properties.json", .obj [("node", .str "g1")])⟩ :=
  rfl

/-! ## Claim C7 — the persisted result round-trips -/

/-- Claim C7: for every completed extraction — every run of the route
that persisted a result file via `fs.writeJson` — reloading the file
with `JSON.parse` yields a value equal to the in-memory result that
was serialized. -/
theorem extract_persisted_roundtrip (env : Env) (selectedFile : String)
    (fileExists : Bool) (fuel : Nat) (r : HandlerResult) (name : String) (v : Json)
    (h1 : extractHandler env selectedFile fileExists fuel = some r)
    (h2 : r.written = some (name, v)) :
    jsonParse (jsonStringify v) = some v :=
  jsonParse_jsonStringify v

/-- The property bag the round-trip witness persists: nested objects,
arrays, numbers (positive and negative), and strings with characters
that `JSON.stringify` escapes. -/
def propsRt : Json :=
  .obj [("data", .obj [("collection", .arr
    [.obj [("objectid", .num 1), ("name", .str "Basic Wall [123]")],
      .obj [("objectid", .num (-2)), ("name", .str "Floor \"slab\"\n")], .null,
      .bool true, .num 0])])]

/-- The full route outcome of the round-trip witness run. -/
def resultRt : HandlerResult :=
  ⟨200,
    [.tokenRequest, .bucketCreate, .signedUrlsReq, .s3Put "u1", .finalizeReq,
      .translateJob, .manifestQuery 0, .manifestQuery 1, .metadataReq, .propsReq "g1",
      .writeJsonFile "racbasicsampleproject_rvt_properties.json"],
    some ("racbasicsampleproject_rvt_properties.json", propsRt)⟩

/-- A remote world whose translation needs two polls and whose
first node carries `propsRt`. -/
def envRt : Env :=
  ⟨.ok "token", .ok, .ok ⟨"upkey", ["u1"]⟩, fun _ => .ok (),
    .ok "urn:adsk.objects:os.object:bucket/file.rvt", .ok (),
    fun i => if i = 0 then .ok "inprogress" else .ok "success",
    .ok [⟨"g1"⟩], fun _ => .ok propsRt⟩

/-- Witness for `extract_persisted_roundtrip`: a completed run of the
route whose persisted value reloads to itself. -/
theorem extract_persisted_roundtrip_witness :
    jsonParse (jsonStringify propsRt) = some propsRt :=
  extract_persisted_roundtrip envRt "racbasicsampleproject.rvt" true 3 resultRt
    "racbasicsampleproject_rvt_properties.json" propsRt rfl rfl
